import Mathlib

/-!
Verification of the robotlb Kubernetes controller (Rust) against its
natural-language specification.  The Rust sources are shallowly embedded:
pure data is translated to Lean structures, the stateful HCloud API calls
are modelled as an explicit command trace applied to an explicit HCloud
state, and fallible code returns `Except`.
-/

namespace RobotLB

/-! ## String helpers

Rust's `str::split(c)` (single-char separator), `starts_with`, `ends_with`,
`strip_prefix` and `strip_suffix` are modelled structurally on the
character list of a `String`, matching Rust semantics (`"".split(c)`
yields one empty part; n separators yield n+1 parts, empty parts kept). -/

/-- Split a character list on a separator character, Rust `str::split` style. -/
def splitChars (c : Char) : List Char → List (List Char)
  | [] => [[]]
  | x :: xs =>
    match splitChars c xs with
    | [] => [[]]
    | g :: gs => if x = c then [] :: g :: gs else (x :: g) :: gs

/-- Split a string on a separator character, Rust `str::split` style. -/
def splitStr (c : Char) (s : String) : List String :=
  (splitChars c s.data).map (fun l => ⟨l⟩)

/-- Rust `str::starts_with('!')`. -/
def startsWithBang (s : String) : Bool :=
  match s.data with
  | '!' :: _ => true
  | _ => false

/-- Rust `str::ends_with('!')`. -/
def endsWithBang (s : String) : Bool :=
  match s.data.getLast? with
  | some '!' => true
  | _ => false

/-- Rust `strip_prefix('!').unwrap()` on a string known to start with `'!'`. -/
def dropFirstChar (s : String) : String := ⟨s.data.tail⟩

/-- Rust `strip_suffix('!').unwrap()` on a string known to end with `'!'`. -/
def dropLastChar (s : String) : String := ⟨s.data.dropLast⟩

/-- Association-list lookup (models `BTreeMap::get` / `HashMap::get`:
keys are unique in all maps the program builds, lookup takes the first hit). -/
def assocLookup {α : Type} [DecidableEq α] {β : Type} (l : List (α × β)) (k : α) : Option β :=
  match l with
  | [] => none
  | (k', v) :: rest => if k' = k then some v else assocLookup rest k

/-- Models Rust's `i32::from_str` digit run (at least one digit, all digits). -/
def parseDigits (cs : List Char) : Option Nat :=
  match cs with
  | [] => none
  | _ =>
    if cs.all (·.isDigit) then
      some (cs.foldl (fun a c => a * 10 + (c.toNat - 48)) 0)
    else
      none

/-- Models Rust's `i32::from_str`: optional sign, digits, i32 range check. -/
def parseI32 (s : String) : Option Int :=
  match s.data with
  | '+' :: rest => (parseDigits rest).bind (fun n => if n ≤ 2 ^ 31 - 1 then some (n : Int) else none)
  | '-' :: rest => (parseDigits rest).bind (fun n => if n ≤ 2 ^ 31 then some (-(n : Int)) else none)
  | cs => (parseDigits cs).bind (fun n => if n ≤ 2 ^ 31 - 1 then some (n : Int) else none)

/-- Models Rust's `bool::from_str`. -/
def parseBoolRust (s : String) : Option Bool :=
  if s = "true" then some true
  else if s = "false" then some false
  else none

/-! ## Error taxonomy (src/error.rs)

Only the variants reachable in the embedded code are carried; the
HCloud transport-error variants wrap network failures that the pure
model does not produce. -/

inductive Err where
  | invalidNodeFilter (s : String)
  | unsupportedServiceType
  | skipService
  | parseIntError
  | parseBoolError
  | hcloudError (s : String)
  | unknownLBAlgorithm
  | serviceWithoutSelector
  deriving DecidableEq, Repr

instance {ε α : Type} [DecidableEq ε] [DecidableEq α] : DecidableEq (Except ε α) := fun x y =>
  match x, y with
  | .ok a, .ok b =>
    if h : a = b then isTrue (by rw [h]) else isFalse (fun hh => by cases hh; exact h rfl)
  | .error a, .error b =>
    if h : a = b then isTrue (by rw [h]) else isFalse (fun hh => by cases hh; exact h rfl)
  | .ok _, .error _ => isFalse (fun hh => by cases hh)
  | .error _, .ok _ => isFalse (fun hh => by cases hh)

/-! ## Label filter (src/label_filter.rs) -/

inductive Rule where
  | equal (key value : String)
  | notEqual (key value : String)
  | keyExists (key : String)
  | doesNotExist (key : String)
  deriving DecidableEq, Repr

/-- `LabelFilter::from_str`, per comma-separated clause (src/label_filter.rs:62-90).
A clause is split on `'='`; one part yields Exists / DoesNotExist, two parts
yield Equal / NotEqual, any other arity is `InvalidNodeFilter`. -/
def parseClause (rule : String) : Except Err Rule :=
  match splitStr '=' rule with
  | [key] =>
    if startsWithBang key then
      .ok (.doesNotExist (dropFirstChar key))
    else
      .ok (.keyExists key)
  | [key, value] =>
    if endsWithBang key then
      .ok (.notEqual (dropLastChar key) value)
    else
      .ok (.equal key value)
  | _ => .error (.invalidNodeFilter rule)

/-- The clause loop of `LabelFilter::from_str`: the first failing clause aborts. -/
def parseRules : List String → Except Err (List Rule)
  | [] => .ok []
  | c :: rest =>
    match parseClause c with
    | .error e => .error e
    | .ok r =>
      match parseRules rest with
      | .error e => .error e
      | .ok rs => .ok (r :: rs)

/-- `LabelFilter::from_str` (src/label_filter.rs:62-90): split the whole
expression on `','` and parse every clause. -/
def parseFilter (s : String) : Except Err (List Rule) :=
  parseRules (splitStr ',' s)

/-- One rule of `LabelFilter::check` (src/label_filter.rs:27-53). -/
def ruleHolds (labels : List (String × String)) : Rule → Bool
  | .equal key value => decide (assocLookup labels key = some value)
  | .notEqual key value => decide (assocLookup labels key ≠ some value)
  | .keyExists key => (assocLookup labels key).isSome
  | .doesNotExist key => (assocLookup labels key).isNone

/-- `LabelFilter::check`: the Rust loop returns `false` at the first failing
rule and `true` after the loop, which is exactly `List.all`. -/
def checkRules (rules : List Rule) (labels : List (String × String)) : Bool :=
  rules.all (ruleHolds labels)

/-! ## HCloud data model (the `hcloud::models` slice the program reads) -/

inductive Alg where
  | roundRobin
  | leastConnections
  deriving DecidableEq, Repr

inductive Protocol where
  | tcp
  | http
  | https
  deriving DecidableEq, Repr

structure HealthCheck where
  protocol : Protocol
  port : Int
  interval : Int
  retries : Int
  timeout : Int
  deriving DecidableEq, Repr

/-- An HCloud load-balancer service.  The program only ever tests the `http`
block for presence and only ever writes `None`, so its payload is `Unit`. -/
structure HSvc where
  listen_port : Int
  destination_port : Int
  proxyprotocol : Bool
  http : Option Unit
  health_check : HealthCheck
  deriving DecidableEq, Repr

structure Target where
  ip : Option String
  deriving DecidableEq, Repr

structure PrivateNet where
  network : Option Int
  ip : Option String
  deriving DecidableEq, Repr

structure PublicAddr where
  ip : Option String
  dns_ptr : Option String
  deriving DecidableEq, Repr

structure PublicNet where
  ipv4 : PublicAddr
  ipv6 : PublicAddr
  deriving DecidableEq, Repr

/-- An observed HCloud load balancer (`hcloud::models::LoadBalancer`),
restricted to the fields the program reads. -/
structure HLB where
  id : Int
  name : String
  algorithm : Alg
  lb_type : String
  services : List HSvc
  targets : List Target
  private_net : List PrivateNet
  public_net : PublicNet
  deriving DecidableEq, Repr

structure HNetwork where
  id : Int
  name : String
  deriving DecidableEq, Repr

/-- The observable HCloud-side state: the load balancers and networks the
account holds.  List calls filter it by exact name. -/
structure HCloudState where
  balancers : List HLB
  networks : List HNetwork
  deriving DecidableEq, Repr

/-- `CreateLoadBalancerRequest` as the program fills it
(src/lb.rs:565-581). -/
structure CreateParams where
  algorithm : Option Alg
  labels : Option (List (String × String))
  load_balancer_type : String
  location : Option String
  name : String
  network : Option Int
  network_zone : Option String
  public_interface : Option Bool
  services : Option (List HSvc)
  targets : Option (List Target)
  deriving DecidableEq, Repr

/-- The mutating HCloud API calls the program can issue. -/
inductive Cmd where
  | create (p : CreateParams)
  | changeAlgorithm (id : Int) (a : Alg)
  | changeType (id : Int) (t : String)
  | attach (id : Int) (network : Int) (ip : Option String)
  | detach (id : Int) (network : Int)
  | addService (id : Int) (s : HSvc)
  | updateService (id : Int) (s : HSvc)
  | deleteService (id : Int) (listen_port : Int)
  | addTarget (id : Int) (ip : String)
  | removeTarget (id : Int) (ip : String)
  | deleteLB (id : Int)
  deriving DecidableEq, Repr

/-! ## Desired state (src/lb.rs `LoadBalancer`) -/

structure LoadBalancer where
  name : String
  services : List (Int × Int)
  targets : List String
  private_ip : Option String
  check_interval : Int
  timeout : Int
  retries : Int
  proxy_mode : Bool
  location : String
  balancer_type : String
  algorithm : Alg
  network_name : Option String
  deriving DecidableEq, Repr

/-- `HashMap::get` on the desired services map (keys are listen ports). -/
def lookupDest (services : List (Int × Int)) (p : Int) : Option Int :=
  assocLookup services p

/-- `HashMap::insert` on the desired services map
(`LoadBalancer::add_service`, src/lb.rs:161-163). -/
def insertService (m : List (Int × Int)) (k v : Int) : List (Int × Int) :=
  if m.any (fun p => decide (p.1 = k)) then
    m.map (fun p => if p.1 = k then (k, v) else p)
  else
    m ++ [(k, v)]

/-! ## HCloud lookups (src/lb.rs) -/

def balancersByName (st : HCloudState) (name : String) : List HLB :=
  st.balancers.filter (fun b => decide (b.name = name))

def networksByName (st : HCloudState) (name : String) : List HNetwork :=
  st.networks.filter (fun n => decide (n.name = name))

/-- `LoadBalancer::get_hcloud_lb` (src/lb.rs:532-551): list balancers by
exact name; more than one is `SkipService`; otherwise the first, if any. -/
def getHcloudLb (lb : LoadBalancer) (st : HCloudState) : Except Err (Option HLB) :=
  let bs := balancersByName st lb.name
  if bs.length > 1 then .error .skipService else .ok bs.head?

/-- `LoadBalancer::get_network` (src/lb.rs:599-631). -/
def getNetwork (lb : LoadBalancer) (st : HCloudState) : Except Err (Option Int) :=
  match lb.network_name with
  | none => .ok none
  | some nm =>
    let ns := networksByName st nm
    if ns.length > 1 then
      .error (.hcloudError "more than one network")
    else
      match ns with
      | [] => .error (.hcloudError "network not found")
      | n :: _ => .ok (some n.id)

/-- The create request built by `get_or_create_hcloud_lb` (src/lb.rs:565-581). -/
def createParams (lb : LoadBalancer) : CreateParams :=
  { algorithm := some lb.algorithm
    labels := none
    load_balancer_type := lb.balancer_type
    location := some lb.location
    name := lb.name
    network := none
    network_zone := none
    public_interface := some true
    services := some []
    targets := some [] }

/-- Modelled HCloud server behaviour: the id assigned to a freshly created
load balancer (any id not in use; the model picks max+1). -/
def freshId (st : HCloudState) : Int :=
  (st.balancers.map (·.id)).foldl max 0 + 1

/-- Modelled HCloud server behaviour: the balancer materialised from a
create request (public IPs are unknown to the model and left absent). -/
def createdLB (st : HCloudState) (p : CreateParams) : HLB :=
  { id := freshId st
    name := p.name
    algorithm := p.algorithm.getD .roundRobin
    lb_type := p.load_balancer_type
    services := p.services.getD []
    targets := p.targets.getD []
    private_net := match p.network with
      | some n => [⟨some n, none⟩]
      | none => []
    public_net := ⟨⟨none, none⟩, ⟨none, none⟩⟩ }

/-- `LoadBalancer::get_or_create_hcloud_lb` (src/lb.rs:559-592), returning
the balancer the sub-steps will observe plus the issued mutations. -/
def getOrCreateHcloudLb (lb : LoadBalancer) (st : HCloudState) :
    Except Err (HLB × List Cmd) :=
  match getHcloudLb lb st with
  | .error e => .error e
  | .ok (some b) => .ok (b, [])
  | .ok none => .ok (createdLB st (createParams lb), [.create (createParams lb)])

/-! ## The converger sub-steps (src/lb.rs) -/

/-- `reconcile_algorithm` (src/lb.rs:351-372). -/
def reconcileAlgorithm (lb : LoadBalancer) (hlb : HLB) : List Cmd :=
  if hlb.algorithm = lb.algorithm then [] else [.changeAlgorithm hlb.id lb.algorithm]

/-- `reconcile_lb_type` (src/lb.rs:375-398). -/
def reconcileLbType (lb : LoadBalancer) (hlb : HLB) : List Cmd :=
  if hlb.lb_type = lb.balancer_type then [] else [.changeType hlb.id lb.balancer_type]

/-- The configuration comparison of `reconcile_services` (src/lb.rs:197-206):
all compared fields of an observed service against the desired destination. -/
def svcMatches (lb : LoadBalancer) (s : HSvc) (d : Int) : Bool :=
  decide (s.destination_port = d
    ∧ s.health_check.port = d
    ∧ s.health_check.interval = lb.check_interval
    ∧ s.health_check.retries = lb.retries
    ∧ s.health_check.timeout = lb.timeout
    ∧ s.proxyprotocol = lb.proxy_mode
    ∧ s.http = none
    ∧ s.health_check.protocol = .tcp)

/-- The service body written by both the update (src/lb.rs:218-234) and the
add (src/lb.rs:271-286) calls: TCP, no http, TCP health check on the
destination port with the configured interval / retries / timeout. -/
def mkSvc (lb : LoadBalancer) (p d : Int) : HSvc :=
  { listen_port := p
    destination_port := d
    proxyprotocol := lb.proxy_mode
    http := none
    health_check :=
      { protocol := .tcp
        port := d
        interval := lb.check_interval
        retries := lb.retries
        timeout := lb.timeout } }

/-- One iteration of pass A of `reconcile_services` (src/lb.rs:193-255). -/
def serviceDiff (lb : LoadBalancer) (bid : Int) (s : HSvc) : List Cmd :=
  match lookupDest lb.services s.listen_port with
  | some d =>
    if svcMatches lb s d then [] else [.updateService bid (mkSvc lb s.listen_port d)]
  | none => [.deleteService bid s.listen_port]

/-- Pass A of `reconcile_services`: walk the observed services. -/
def reconcileServicesA (lb : LoadBalancer) (bid : Int) : List HSvc → List Cmd
  | [] => []
  | s :: rest => serviceDiff lb bid s ++ reconcileServicesA lb bid rest

/-- Pass B of `reconcile_services` (src/lb.rs:257-291): add every desired
entry whose listen port has no observed service. -/
def reconcileServicesB (lb : LoadBalancer) (bid : Int) (obs : List HSvc) :
    List (Int × Int) → List Cmd
  | [] => []
  | (p, d) :: rest =>
    (if obs.any (fun s => decide (s.listen_port = p)) then []
     else [.addService bid (mkSvc lb p d)]) ++ reconcileServicesB lb bid obs rest

/-- `reconcile_services` (src/lb.rs:189-293). -/
def reconcileServices (lb : LoadBalancer) (hlb : HLB) : List Cmd :=
  reconcileServicesA lb hlb.id hlb.services ++
    reconcileServicesB lb hlb.id hlb.services lb.services

/-- Pass A of `reconcile_targets` (src/lb.rs:303-321): remove every observed
target whose ip is not desired; targets without an ip are skipped. -/
def reconcileTargetsA (desired : List String) (bid : Int) : List Target → List Cmd
  | [] => []
  | t :: rest =>
    (match t.ip with
     | none => []
     | some ip => if decide (ip ∈ desired) then [] else [.removeTarget bid ip]) ++
      reconcileTargetsA desired bid rest

/-- Pass B of `reconcile_targets` (src/lb.rs:323-344): add every desired ip
that no observed target carries. -/
def reconcileTargetsB (obs : List Target) (bid : Int) : List String → List Cmd
  | [] => []
  | ip :: rest =>
    (if obs.any (fun t => decide (t.ip = some ip)) then [] else [.addTarget bid ip]) ++
      reconcileTargetsB obs bid rest

/-- `reconcile_targets` (src/lb.rs:299-346). -/
def reconcileTargets (lb : LoadBalancer) (hlb : HLB) : List Cmd :=
  reconcileTargetsA lb.targets hlb.id hlb.targets ++
    reconcileTargetsB hlb.targets hlb.id lb.targets

/-- The keep condition of the `reconcile_network` loop (src/lb.rs:420-438):
an entry with a network id is kept iff that id is the desired one and, when
a private ip is configured, the attachment ip matches it. -/
def satisfactoryEntry (desired : Option Int) (pip : Option String) (pn : PrivateNet) : Bool :=
  match pn.network with
  | none => false
  | some nid => decide (desired = some nid) && (pip.isNone || decide (pn.ip = pip))

/-- The `private_net` loop of `reconcile_network` (src/lb.rs:419-453):
returns whether any satisfactory attachment was seen and the detach
commands for the others (entries without a network id are skipped). -/
def netScan (desired : Option Int) (pip : Option String) (bid : Int) :
    List PrivateNet → Bool × List Cmd
  | [] => (false, [])
  | pn :: rest =>
    let r := netScan desired pip bid rest
    match pn.network with
    | none => r
    | some nid =>
      if decide (desired = some nid) && (pip.isNone || decide (pn.ip = pip)) then
        (true, r.2)
      else
        (r.1, .detach bid nid :: r.2)

/-- `reconcile_network` (src/lb.rs:405-474). -/
def reconcileNetwork (lb : LoadBalancer) (st : HCloudState) (hlb : HLB) :
    Except Err (List Cmd) :=
  if lb.network_name.isNone && hlb.private_net.isEmpty then .ok []
  else
    match getNetwork lb st with
    | .error e => .error e
    | .ok desired =>
      let r := netScan desired lb.private_ip hlb.id hlb.private_net
      if r.1 then .ok r.2
      else
        match desired with
        | none => .ok r.2
        | some nid => .ok (r.2 ++ [.attach hlb.id nid lb.private_ip])

/-- `LoadBalancer::reconcile` (src/lb.rs:175-183): fetch or create, then run
the sub-steps in order against the fetched snapshot, collecting every
mutating call.  Returns the snapshot (the value the Rust method returns)
and the issued commands. -/
def reconcile (lb : LoadBalancer) (st : HCloudState) : Except Err (HLB × List Cmd) :=
  match getOrCreateHcloudLb lb st with
  | .error e => .error e
  | .ok (hlb, c0) =>
    match reconcileNetwork lb st hlb with
    | .error e => .error e
    | .ok c3 =>
      .ok (hlb, c0 ++ reconcileAlgorithm lb hlb ++ reconcileLbType lb hlb ++ c3 ++
        reconcileServices lb hlb ++ reconcileTargets lb hlb)

/-- `LoadBalancer::cleanup` (src/lb.rs:479-524): nothing to do when the
balancer is absent; otherwise delete every service, remove every target
that has an ip, then delete the balancer. -/
def cleanup (lb : LoadBalancer) (st : HCloudState) : Except Err (List Cmd) :=
  match getHcloudLb lb st with
  | .error e => .error e
  | .ok none => .ok []
  | .ok (some b) =>
    .ok ((b.services.map fun s => Cmd.deleteService b.id s.listen_port) ++
      (b.targets.filterMap fun t => t.ip.map (Cmd.removeTarget b.id)) ++
      [Cmd.deleteLB b.id])

/-! ## Modelled HCloud server semantics: applying the mutating calls -/

/-- Effect of one mutating call on one balancer (no-op on id mismatch). -/
def applyCmdB (b : HLB) : Cmd → HLB
  | .changeAlgorithm id a => if b.id = id then { b with algorithm := a } else b
  | .changeType id t => if b.id = id then { b with lb_type := t } else b
  | .attach id n ip =>
    if b.id = id then { b with private_net := b.private_net ++ [⟨some n, ip⟩] } else b
  | .detach id n =>
    if b.id = id then
      { b with private_net := b.private_net.filter (fun pn => decide (pn.network ≠ some n)) }
    else b
  | .addService id s => if b.id = id then { b with services := b.services ++ [s] } else b
  | .updateService id s =>
    if b.id = id then
      { b with services := b.services.map (fun t => if t.listen_port = s.listen_port then s else t) }
    else b
  | .deleteService id p =>
    if b.id = id then
      { b with services := b.services.filter (fun t => decide (t.listen_port ≠ p)) }
    else b
  | .addTarget id ip => if b.id = id then { b with targets := b.targets ++ [⟨some ip⟩] } else b
  | .removeTarget id ip =>
    if b.id = id then
      { b with targets := b.targets.filter (fun t => decide (t.ip ≠ some ip)) }
    else b
  | .create _ => b
  | .deleteLB _ => b

/-- Effect of one mutating call on the HCloud state. -/
def applyCmd (st : HCloudState) (c : Cmd) : HCloudState :=
  match c with
  | .create p => { st with balancers := st.balancers ++ [createdLB st p] }
  | .deleteLB id => { st with balancers := st.balancers.filter (fun b => decide (b.id ≠ id)) }
  | c => { st with balancers := st.balancers.map (fun b => applyCmdB b c) }

def applyCmds (st : HCloudState) (cs : List Cmd) : HCloudState :=
  cs.foldl applyCmd st

/-- One observable reconcile pass: the HCloud state after the issued
mutations are applied. -/
def reconcileStep (lb : LoadBalancer) (st : HCloudState) : Except Err HCloudState :=
  (reconcile lb st).map (fun r => applyCmds st r.2)

/-! ## Kubernetes data model (the k8s-openapi slice the program reads) -/

structure KNodeAddress where
  type_ : String
  address : String
  deriving DecidableEq, Repr

structure KNodeStatus where
  addresses : Option (List KNodeAddress)
  deriving DecidableEq, Repr

structure KNode where
  name : String
  labels : List (String × String)
  status : Option KNodeStatus
  deriving DecidableEq, Repr

structure KPod where
  nspace : String
  labels : List (String × String)
  node_name : Option String
  deriving DecidableEq, Repr

structure KServicePort where
  port : Int
  node_port : Option Int
  protocol : Option String
  deriving DecidableEq, Repr

structure KServiceSpec where
  type? : Option String
  selector : Option (List (String × String))
  ports : Option (List KServicePort)
  deriving DecidableEq, Repr

/-- A Kubernetes Service, restricted to the fields the program reads. -/
structure KService where
  name : String
  nspace : Option String
  annots : List (String × String)
  labels : List (String × String)
  finalizers : Option (List String)
  deletionTimestamp : Option String
  spec : Option KServiceSpec
  deriving DecidableEq, Repr

/-- The cluster-side observed state: nodes and pods, plus the kube client's
default namespace. -/
structure KubeState where
  nodes : List KNode
  pods : List KPod
  defaultNamespace : String
  deriving DecidableEq, Repr

/-- `OperatorConfig` (src/config.rs), restricted to the fields reconciliation
reads. -/
structure OperatorConfig where
  default_network : Option String
  dynamic_node_selector : Bool
  default_lb_retries : Int
  default_lb_timeout : Int
  default_lb_interval : Int
  default_lb_location : String
  default_balancer_type : String
  default_lb_algorithm : String
  default_lb_proxy_mode_enabled : Bool
  ipv6_ingress : Bool
  deriving DecidableEq, Repr

/-- `svc.annotations().get(key)`. -/
def annot (svc : KService) (key : String) : Option String :=
  assocLookup svc.annots key

/-! ## Finalizer manager (src/finalizers.rs) -/

def finalizerName : String := "lb-tracker/finalizer"

/-- `svc.finalizers()` (kube `ResourceExt`): the finalizer list or empty. -/
def finalizersList (svc : KService) : List String :=
  svc.finalizers.getD []

/-- `finalizers::check` (src/finalizers.rs:35-43). -/
def finalizerCheck (svc : KService) : Bool :=
  match svc.finalizers with
  | none => false
  | some fins => fins.contains finalizerName

/-- The body of the merge patch sent by `finalizers::add`
(src/finalizers.rs:19-23): the literal list `[FINALIZER_NAME]`. -/
def addPatch : List String := [finalizerName]

/-- The body of the merge patch sent by `finalizers::remove`
(src/finalizers.rs:54-63): the service's finalizers with `FINALIZER_NAME`
filtered out. -/
def removePatch (svc : KService) : List String :=
  (finalizersList svc).filter (fun f => decide (f ≠ finalizerName))

/-- Modelled Kubernetes server behaviour: a JSON merge patch
(RFC 7386, kube `Patch::Merge`) on `metadata.finalizers` replaces the whole
list with the patch body. -/
def applyFinalizersPatch (svc : KService) (fins : List String) : KService :=
  { svc with finalizers := some fins }

/-- `finalizers::add` (src/finalizers.rs:14-31): requires a namespace, then
merge-patches `metadata.finalizers` to `[FINALIZER_NAME]`. -/
def addFinalizer (svc : KService) : Except Err KService :=
  match svc.nspace with
  | none => .error .skipService
  | some _ => .ok (applyFinalizersPatch svc addPatch)

/-- `finalizers::remove` (src/finalizers.rs:49-71): requires a namespace,
then merge-patches `metadata.finalizers` to the filtered list. -/
def removeFinalizer (svc : KService) : Except Err KService :=
  match svc.nspace with
  | none => .error .skipService
  | some _ => .ok (applyFinalizersPatch svc (removePatch svc))

/-! ## Reconciler (src/main.rs) -/

/-- The Kubernetes-side writes the reconciler issues. -/
structure IngressEntry where
  ip : String
  dns : Option String
  deriving DecidableEq, Repr

inductive KOp where
  | patchFinalizers (fins : List String)
  | patchStatus (ingress : List IngressEntry)
  deriving DecidableEq, Repr

/-- An observable side effect: an HCloud mutating call or a Kubernetes patch. -/
inductive Ev where
  | hcloud (c : Cmd)
  | k8s (op : KOp)
  deriving DecidableEq, Repr

inductive Action where
  | awaitChange
  | requeue (secs : Nat)
  deriving DecidableEq, Repr

/-- `LBAlgorithm::from_str` (src/lb.rs:634-643). -/
def parseAlg (s : String) : Except Err Alg :=
  if s = "round-robin" then .ok .roundRobin
  else if s = "least-connections" then .ok .leastConnections
  else .error .unknownLBAlgorithm

/-- `annotation.map(parse).transpose()?.unwrap_or(default)`. -/
def optParse {α : Type} (o : Option String) (p : String → Option α) (e : Err) (dflt : α) :
    Except Err α :=
  match o with
  | none => .ok dflt
  | some s =>
    match p s with
    | some v => .ok v
    | none => .error e

/-- `LoadBalancer::try_from_svc` (src/lb.rs:70-156). -/
def tryFromSvc (svc : KService) (cfg : OperatorConfig) : Except Err LoadBalancer := do
  let retries ← optParse (annot svc "lb-tracker/lb-retries") parseI32
    .parseIntError cfg.default_lb_retries
  let timeout ← optParse (annot svc "lb-tracker/lb-timeout") parseI32
    .parseIntError cfg.default_lb_timeout
  let check_interval ← optParse (annot svc "lb-tracker/lb-check-interval") parseI32
    .parseIntError cfg.default_lb_interval
  let proxy_mode ← optParse (annot svc "lb-tracker/lb-proxy-mode") parseBoolRust
    .parseBoolError cfg.default_lb_proxy_mode_enabled
  let location := (annot svc "lb-tracker/lb-location").getD cfg.default_lb_location
  let balancer_type := (annot svc "lb-tracker/balancer-type").getD cfg.default_balancer_type
  let algorithm ← parseAlg ((annot svc "lb-tracker/lb-algorithm").getD cfg.default_lb_algorithm)
  let network_name := (annot svc "lb-tracker/lb-network") <|> cfg.default_network
  let name := (annot svc "lb-tracker/balancer").getD svc.name
  let private_ip := annot svc "lb-tracker/lb-private-ip"
  .ok
    { name
      private_ip
      balancer_type
      check_interval
      timeout
      retries
      location
      proxy_mode
      network_name
      algorithm
      services := []
      targets := [] }

/-- `get_nodes_dynamically` (src/main.rs:161-205): pods of the Service's
namespace matching the selector give the node names; nodes are filtered by
those names. -/
def getNodesDynamically (kst : KubeState) (svc : KService) : Except Err (List KNode) :=
  match svc.spec.bind (·.selector) with
  | none => .error .serviceWithoutSelector
  | some sel =>
    let ns := svc.nspace.getD kst.defaultNamespace
    let pods := kst.pods.filter (fun p =>
      decide (p.nspace = ns) &&
        sel.all (fun kv => decide (assocLookup p.labels kv.1 = some kv.2)))
    let targetNodes := pods.filterMap (·.node_name)
    .ok (kst.nodes.filter (fun n => decide (n.name ∈ targetNodes)))

/-- `get_nodes_by_selector` (src/main.rs:210-228): parse the node-selector
annotation as a label filter and keep the nodes satisfying it. -/
def getNodesBySelector (kst : KubeState) (svc : KService) : Except Err (List KNode) :=
  match annot svc "lb-tracker/node-selector" with
  | none => .error .serviceWithoutSelector
  | some sel => do
    let rules ← parseFilter sel
    .ok (kst.nodes.filter (fun n => checkRules rules n.labels))

/-- The node-address loop of `reconcile_load_balancer` (src/main.rs:249-261):
every address of the chosen type, in node order (nodes without a status or
without addresses are skipped). -/
def nodeTargets (nodeIpType : String) (nodes : List KNode) : List String :=
  nodes.foldl (fun acc n =>
    match n.status with
    | none => acc
    | some s =>
      match s.addresses with
      | none => acc
      | some addrs =>
        acc ++ (addrs.filter (fun a => decide (a.type_ = nodeIpType))).map (·.address)) []

/-- The ports loop of `reconcile_load_balancer` (src/main.rs:263-283):
non-TCP ports and ports without a node port are skipped, the rest are
inserted as `listen_port ↦ node_port`. -/
def portServices (init : List (Int × Int)) (ports : List KServicePort) : List (Int × Int) :=
  ports.foldl (fun m p =>
    if (p.protocol.getD "TCP") ≠ "TCP" then m
    else
      match p.node_port with
      | none => m
      | some np => insertService m p.port np) init

/-- The ingress list built from the balancer's public addresses
(src/main.rs:294-315). -/
def ingressOf (cfg : OperatorConfig) (hlb : HLB) : List IngressEntry :=
  (match hlb.public_net.ipv4.ip with
   | some ip => [⟨ip, hlb.public_net.ipv4.dns_ptr⟩]
   | none => []) ++
  (if cfg.ipv6_ingress then
    match hlb.public_net.ipv6.ip with
    | some ip => [⟨ip, hlb.public_net.ipv6.dns_ptr⟩]
    | none => []
   else [])

/-- `reconcile_load_balancer` (src/main.rs:233-334). -/
def reconcileLoadBalancer (cfg : OperatorConfig) (kst : KubeState) (st : HCloudState)
    (svc : KService) (lb0 : LoadBalancer) : Except Err (List Ev × Action) := do
  let nodeIpType := if lb0.network_name = none then "ExternalIP" else "InternalIP"
  let nodes ←
    if cfg.dynamic_node_selector then getNodesDynamically kst svc
    else getNodesBySelector kst svc
  let lb1 := { lb0 with targets := lb0.targets ++ nodeTargets nodeIpType nodes }
  let lb2 :=
    { lb1 with services := portServices lb1.services ((svc.spec.bind (·.ports)).getD []) }
  let (hlb, cmds) ← reconcile lb2 st
  let ingress := ingressOf cfg hlb
  let evs := cmds.map Ev.hcloud ++
    (if ingress.isEmpty then [] else [Ev.k8s (.patchStatus ingress)])
  .ok (evs, .requeue 30)

/-- `svc.spec.and_then(|s| s.type_).unwrap_or("ClusterIP")`
(src/main.rs:126-131). -/
def svcTypeOf (svc : KService) : String :=
  ((svc.spec.bind (·.type?)).getD "ClusterIP")

/-- `reconcile_service` (src/main.rs:122-156), with every mutating call
recorded as an event, in issue order. -/
def reconcileService (cfg : OperatorConfig) (kst : KubeState) (st : HCloudState)
    (svc : KService) : Except Err (List Ev × Action) :=
  if svcTypeOf svc ≠ "LoadBalancer" then .error .skipService
  else
    match tryFromSvc svc cfg with
    | .error e => .error e
    | .ok lb =>
      if svc.deletionTimestamp.isSome then
        match cleanup lb st with
        | .error e => .error e
        | .ok cmds =>
          match svc.nspace with
          | none => .error .skipService
          | some _ =>
            .ok (cmds.map Ev.hcloud ++ [Ev.k8s (.patchFinalizers (removePatch svc))],
              .awaitChange)
      else
        let fev : Except Err (List Ev) :=
          if finalizerCheck svc then .ok []
          else
            match svc.nspace with
            | none => .error .skipService
            | some _ => .ok [Ev.k8s (.patchFinalizers addPatch)]
        match fev with
        | .error e => .error e
        | .ok evs0 =>
          match reconcileLoadBalancer cfg kst st svc lb with
          | .error e => .error e
          | .ok (evs, act) => .ok (evs0 ++ evs, act)

/-! ## Convergence to the desired state (spec §3 invariants)

`convergedToDesired lb st b` transcribes the spec's description of the
desired HCloud state for a desired configuration `lb`: exactly one balancer
carries the name and it is `b`; algorithm and type match; every observed
service is configured as desired and every desired listen port is present;
every observed target ip is desired and every desired ip is present; the
private-network attachment is as configured. -/

/-- An observed service needs no update or delete. -/
def svcConverged (lb : LoadBalancer) (s : HSvc) : Bool :=
  match lookupDest lb.services s.listen_port with
  | some d => svcMatches lb s d
  | none => false

/-- An observed target needs no removal. -/
def targetConverged (desired : List String) (t : Target) : Bool :=
  match t.ip with
  | none => true
  | some ip => decide (ip ∈ desired)

/-- The private-network attachment is as the spec's desired state describes. -/
def networkConverged (lb : LoadBalancer) (st : HCloudState) (b : HLB) : Prop :=
  match lb.network_name with
  | none => ∀ pn ∈ b.private_net, pn.network = none
  | some nm => ∃ n, networksByName st nm = [n]
      ∧ (∀ pn ∈ b.private_net,
          pn.network = none ∨ satisfactoryEntry (some n.id) lb.private_ip pn = true)
      ∧ b.private_net.any (satisfactoryEntry (some n.id) lb.private_ip) = true

/-- The HCloud state matches the desired configuration `lb`, its unique
balancer of that name being `b`. -/
def convergedToDesired (lb : LoadBalancer) (st : HCloudState) (b : HLB) : Prop :=
  balancersByName st lb.name = [b]
  ∧ b.algorithm = lb.algorithm
  ∧ b.lb_type = lb.balancer_type
  ∧ (∀ s ∈ b.services, svcConverged lb s = true)
  ∧ (∀ pd ∈ lb.services, b.services.any (fun s => decide (s.listen_port = pd.1)) = true)
  ∧ (∀ t ∈ b.targets, targetConverged lb.targets t = true)
  ∧ (∀ ip ∈ lb.targets, b.targets.any (fun t => decide (t.ip = some ip)) = true)
  ∧ networkConverged lb st b

/-! ## Helper lemmas -/

theorem applyCmds_nil (st : HCloudState) : applyCmds st [] = st := rfl

theorem getHcloudLb_unique {lb : LoadBalancer} {st : HCloudState} {b : HLB}
    (h : balancersByName st lb.name = [b]) : getHcloudLb lb st = .ok (some b) := by
  unfold getHcloudLb
  rw [h]
  rfl

theorem passA_nil (lb : LoadBalancer) (bid : Int) (ss : List HSvc)
    (h : ∀ s ∈ ss, svcConverged lb s = true) :
    reconcileServicesA lb bid ss = [] := by
  induction ss with
  | nil => rfl
  | cons s rest ih =>
    have hs := h s (by simp)
    have hr := ih (fun x hx => h x (by simp [hx]))
    unfold svcConverged at hs
    unfold reconcileServicesA serviceDiff
    cases hl : lookupDest lb.services s.listen_port with
    | none => rw [hl] at hs; simp at hs
    | some d =>
      rw [hl] at hs
      simp only [] at hs
      simp [hs, hr]

theorem passB_nil (lb : LoadBalancer) (bid : Int) (obs : List HSvc) (pds : List (Int × Int))
    (h : ∀ pd ∈ pds, obs.any (fun s => decide (s.listen_port = pd.1)) = true) :
    reconcileServicesB lb bid obs pds = [] := by
  induction pds with
  | nil => rfl
  | cons pd rest ih =>
    obtain ⟨p, d⟩ := pd
    have hp := h (p, d) (by simp)
    have hr := ih (fun x hx => h x (by simp [hx]))
    unfold reconcileServicesB
    simp only at hp
    simp [hp, hr]

theorem targetsA_nil (desired : List String) (bid : Int) (ts : List Target)
    (h : ∀ t ∈ ts, targetConverged desired t = true) :
    reconcileTargetsA desired bid ts = [] := by
  induction ts with
  | nil => rfl
  | cons t rest ih =>
    have ht := h t (by simp)
    have hr := ih (fun x hx => h x (by simp [hx]))
    unfold targetConverged at ht
    unfold reconcileTargetsA
    cases hi : t.ip with
    | none => rw [hi] at ht; simp [hi, hr]
    | some ip =>
      rw [hi] at ht
      simp only [] at ht
      simp [hi, ht, hr]

theorem targetsB_nil (obs : List Target) (bid : Int) (desired : List String)
    (h : ∀ ip ∈ desired, obs.any (fun t => decide (t.ip = some ip)) = true) :
    reconcileTargetsB obs bid desired = [] := by
  induction desired with
  | nil => rfl
  | cons ip rest ih =>
    have hp := h ip (by simp)
    have hr := ih (fun x hx => h x (by simp [hx]))
    unfold reconcileTargetsB
    simp [hp, hr]

theorem netScan_eq (desired : Option Int) (pip : Option String) (bid : Int)
    (l : List PrivateNet) :
    netScan desired pip bid l =
      (l.any (satisfactoryEntry desired pip),
       l.filterMap (fun pn => pn.network.bind
         (fun nid => if satisfactoryEntry desired pip pn then none
                     else some (Cmd.detach bid nid)))) := by
  induction l with
  | nil => rfl
  | cons pn rest ih =>
    cases hn : pn.network with
    | none =>
      simp [netScan, hn, ih, satisfactoryEntry]
    | some nid =>
      by_cases hc : (decide (desired = some nid) && (pip.isNone || decide (pn.ip = pip))) = true
      · simp [netScan, hn, ih, satisfactoryEntry, hc]
      · simp only [Bool.not_eq_true] at hc
        simp [netScan, hn, ih, satisfactoryEntry, hc]

theorem reconcileNetwork_of_converged {lb : LoadBalancer} {st : HCloudState} {b : HLB}
    (h : networkConverged lb st b) : reconcileNetwork lb st b = .ok [] := by
  by_cases hc : (lb.network_name.isNone && b.private_net.isEmpty) = true
  · unfold reconcileNetwork
    rw [if_pos hc]
  · unfold reconcileNetwork
    rw [if_neg hc]
    unfold networkConverged at h
    cases hnm : lb.network_name with
    | none =>
      rw [hnm] at h
      have hg : getNetwork lb st = .ok none := by unfold getNetwork; rw [hnm]
      rw [hg]
      have hscan : netScan none lb.private_ip b.id b.private_net = (false, []) := by
        rw [netScan_eq]
        have h1 : b.private_net.any (satisfactoryEntry none lb.private_ip) = false := by
          apply List.any_eq_false.mpr
          intro pn hpn
          simp [satisfactoryEntry, h pn hpn]
        have h2 : b.private_net.filterMap (fun pn => pn.network.bind
            (fun nid => if satisfactoryEntry none lb.private_ip pn then none
                        else some (Cmd.detach b.id nid))) = [] := by
          apply List.filterMap_eq_nil_iff.mpr
          intro pn hpn
          rw [h pn hpn]
          rfl
        rw [h1, h2]
      simp [hscan]
    | some nm =>
      rw [hnm] at h
      obtain ⟨n, hn, hall, hany⟩ := h
      have hg : getNetwork lb st = .ok (some n.id) := by
        unfold getNetwork
        rw [hnm]
        simp [hn]
      rw [hg]
      have hscan : netScan (some n.id) lb.private_ip b.id b.private_net = (true, []) := by
        rw [netScan_eq]
        have h2 : b.private_net.filterMap (fun pn => pn.network.bind
            (fun nid => if satisfactoryEntry (some n.id) lb.private_ip pn then none
                        else some (Cmd.detach b.id nid))) = [] := by
          apply List.filterMap_eq_nil_iff.mpr
          intro pn hpn
          rcases hall pn hpn with hno | hsat
          · rw [hno]; rfl
          · rw [hsat]
            cases pn.network <;> rfl
        rw [hany, h2]
      simp [hscan]

/-- In a converged state `reconcile` finds the unique balancer and issues no
mutating call at all. -/
theorem reconcile_of_converged {lb : LoadBalancer} {st : HCloudState} {b : HLB}
    (h : convergedToDesired lb st b) : reconcile lb st = .ok (b, []) := by
  obtain ⟨hbal, halg, htyp, hsA, hsB, htA, htB, hnet⟩ := h
  have h1 : getOrCreateHcloudLb lb st = .ok (b, []) := by
    unfold getOrCreateHcloudLb
    rw [getHcloudLb_unique hbal]
  have h2 : reconcileAlgorithm lb b = [] := by unfold reconcileAlgorithm; rw [if_pos halg]
  have h3 : reconcileLbType lb b = [] := by unfold reconcileLbType; rw [if_pos htyp]
  have h4 : reconcileNetwork lb st b = .ok [] := reconcileNetwork_of_converged hnet
  have h5 : reconcileServices lb b = [] := by
    unfold reconcileServices
    rw [passA_nil lb b.id b.services hsA, passB_nil lb b.id b.services lb.services hsB]
    rfl
  have h6 : reconcileTargets lb b = [] := by
    unfold reconcileTargets
    rw [targetsA_nil lb.targets b.id b.targets htA, targetsB_nil b.targets b.id lb.targets htB]
    rfl
  unfold reconcile
  rw [h1]
  simp [h2, h3, h4, h5, h6]

/-! ## Claim C1 -/

/-- **C1.**  For every Service (desired `LoadBalancer`) and every observed
HCloud state, if one `reconcile` run converges the HCloud state to the
desired state, then a second run over the resulting state returns with an
empty list of mutating HCloud calls (no create, change_algorithm,
change_type, attach, detach, add/update/delete service, add/remove target)
and leaves the HCloud state unchanged. -/
theorem reconcile_idempotent_after_convergence
    (lb : LoadBalancer) (st st' : HCloudState) (b b' : HLB) (cs : List Cmd)
    (_hrun : reconcile lb st = .ok (b, cs))
    (_happly : applyCmds st cs = st')
    (hconv : convergedToDesired lb st' b') :
    reconcile lb st' = .ok (b', []) ∧ reconcileStep lb st' = .ok st' := by
  have h := reconcile_of_converged hconv
  refine ⟨h, ?_⟩
  unfold reconcileStep
  rw [h]
  rfl

def lbWit : LoadBalancer :=
  { name := "lb"
    services := [(80, 30080)]
    targets := ["1.2.3.4"]
    private_ip := none
    check_interval := 15
    timeout := 10
    retries := 3
    proxy_mode := false
    location := "hel1"
    balancer_type := "lb11"
    algorithm := .leastConnections
    network_name := none }

def bWit : HLB :=
  { id := 1
    name := "lb"
    algorithm := .leastConnections
    lb_type := "lb11"
    services := [{ listen_port := 80, destination_port := 30080, proxyprotocol := false,
                   http := none,
                   health_check := { protocol := .tcp, port := 30080, interval := 15,
                                     retries := 3, timeout := 10 } }]
    targets := [⟨some "1.2.3.4"⟩]
    private_net := []
    public_net := ⟨⟨none, none⟩, ⟨none, none⟩⟩ }

def stWit : HCloudState := { balancers := [bWit], networks := [] }

/-- Witness for C1 at a concrete converged state. -/
theorem reconcile_idempotent_after_convergence_witness :
    reconcile lbWit stWit = .ok (bWit, []) ∧ reconcileStep lbWit stWit = .ok stWit :=
  reconcile_idempotent_after_convergence lbWit stWit stWit bWit bWit [] (by decide)
    (by decide)
    ⟨by decide, by decide, by decide, by decide, by decide, by decide, by decide,
      by simp [networkConverged, lbWit, bWit]⟩

/-! ## Claim C2 -/

/-- **C2.**  Listing HCloud balancers by the desired name: more than one hit
makes `reconcile` fail with `SkipService` (and the model's whole run is an
error, so no mutating call is issued); no hit creates a balancer with
exactly `{name, algorithm, type, location, public_interface: true, services:
[], targets: []}` and no network; exactly one hit is returned unmodified by
this step, with no mutation. -/
theorem get_or_create_cases (lb : LoadBalancer) (st : HCloudState) :
    ((balancersByName st lb.name).length > 1 →
      getHcloudLb lb st = .error .skipService ∧ reconcile lb st = .error .skipService)
    ∧ (balancersByName st lb.name = [] →
      getOrCreateHcloudLb lb st =
        .ok (createdLB st (createParams lb), [.create (createParams lb)])
      ∧ createParams lb =
        { algorithm := some lb.algorithm
          labels := none
          load_balancer_type := lb.balancer_type
          location := some lb.location
          name := lb.name
          network := none
          network_zone := none
          public_interface := some true
          services := some []
          targets := some [] })
    ∧ (∀ b : HLB, balancersByName st lb.name = [b] → getOrCreateHcloudLb lb st = .ok (b, [])) := by
  refine ⟨?_, ?_, ?_⟩
  · intro h
    have hg : getHcloudLb lb st = .error .skipService := by
      simp only [getHcloudLb]
      rw [if_pos h]
    refine ⟨hg, ?_⟩
    unfold reconcile getOrCreateHcloudLb
    rw [hg]
  · intro h
    have hg : getHcloudLb lb st = .ok none := by
      simp only [getHcloudLb]
      rw [h]
      rfl
    constructor
    · unfold getOrCreateHcloudLb
      rw [hg]
    · rfl
  · intro b h
    unfold getOrCreateHcloudLb
    rw [getHcloudLb_unique h]

def stEmptyWit : HCloudState := { balancers := [], networks := [] }

def stDupWit : HCloudState := { balancers := [bWit, { bWit with id := 2 }], networks := [] }

/-- Witness for C2: each of the three cases at a concrete state. -/
theorem get_or_create_cases_witness :
    reconcile lbWit stDupWit = .error .skipService
    ∧ getOrCreateHcloudLb lbWit stEmptyWit =
        .ok (createdLB stEmptyWit (createParams lbWit), [.create (createParams lbWit)])
    ∧ getOrCreateHcloudLb lbWit stWit = .ok (bWit, []) :=
  ⟨((get_or_create_cases lbWit stDupWit).1 (by decide)).2,
   ((get_or_create_cases lbWit stEmptyWit).2.1 (by decide)).1,
   (get_or_create_cases lbWit stWit).2.2 bWit (by decide)⟩

/-! ## Claim C3 -/

theorem mem_reconcileServicesA {lb : LoadBalancer} {bid : Int} {ss : List HSvc} {c : Cmd} :
    c ∈ reconcileServicesA lb bid ss ↔ ∃ s ∈ ss, c ∈ serviceDiff lb bid s := by
  induction ss with
  | nil => simp [reconcileServicesA]
  | cons s rest ih =>
    simp only [reconcileServicesA, List.mem_append, ih, List.mem_cons]
    constructor
    · rintro (h | ⟨s', hs', hc⟩)
      · exact ⟨s, Or.inl rfl, h⟩
      · exact ⟨s', Or.inr hs', hc⟩
    · rintro ⟨s', h | h, hc⟩
      · subst h; exact Or.inl hc
      · exact Or.inr ⟨s', h, hc⟩

theorem mem_reconcileServicesB {lb : LoadBalancer} {bid : Int} {obs : List HSvc}
    {pds : List (Int × Int)} {c : Cmd} :
    c ∈ reconcileServicesB lb bid obs pds ↔
      ∃ pd ∈ pds, (obs.any (fun s => decide (s.listen_port = pd.1))) = false
        ∧ c = .addService bid (mkSvc lb pd.1 pd.2) := by
  induction pds with
  | nil => simp [reconcileServicesB]
  | cons pd rest ih =>
    obtain ⟨p, d⟩ := pd
    by_cases h : (obs.any (fun s => decide (s.listen_port = p))) = true
    · rw [show reconcileServicesB lb bid obs ((p, d) :: rest) =
          (if obs.any (fun s => decide (s.listen_port = p)) then []
           else [.addService bid (mkSvc lb p d)]) ++ reconcileServicesB lb bid obs rest
          from rfl, if_pos h]
      simp only [List.nil_append, ih, List.mem_cons]
      constructor
      · rintro ⟨pd', hm, hf, hc⟩
        exact ⟨pd', Or.inr hm, hf, hc⟩
      · rintro ⟨pd', hm | hm, hf, hc⟩
        · subst hm; rw [h] at hf; cases hf
        · exact ⟨pd', hm, hf, hc⟩
    · simp only [Bool.not_eq_true] at h
      rw [show reconcileServicesB lb bid obs ((p, d) :: rest) =
          (if obs.any (fun s => decide (s.listen_port = p)) then []
           else [.addService bid (mkSvc lb p d)]) ++ reconcileServicesB lb bid obs rest
          from rfl, h]
      simp only [if_neg (by simp : ¬ (false = true)), List.cons_append, List.nil_append,
        List.mem_cons, ih]
      constructor
      · rintro (hc | ⟨pd', hm, hf, hc⟩)
        · exact ⟨(p, d), Or.inl rfl, h, hc⟩
        · exact ⟨pd', Or.inr hm, hf, hc⟩
      · rintro ⟨pd', hm | hm, hf, hc⟩
        · subst hm; exact Or.inl hc
        · exact Or.inr ⟨pd', hm, hf, hc⟩

theorem serviceDiff_some {lb : LoadBalancer} {bid : Int} {s : HSvc} {d : Int}
    (h : lookupDest lb.services s.listen_port = some d) :
    serviceDiff lb bid s =
      if svcMatches lb s d then [] else [.updateService bid (mkSvc lb s.listen_port d)] := by
  unfold serviceDiff
  rw [h]

theorem serviceDiff_none {lb : LoadBalancer} {bid : Int} {s : HSvc}
    (h : lookupDest lb.services s.listen_port = none) :
    serviceDiff lb bid s = [.deleteService bid s.listen_port] := by
  unfold serviceDiff
  rw [h]

/-- **C3.**  In `reconcile_services`, keyed on listen port: an observed
service whose listen port is desired is updated iff at least one compared
field differs (the comparison `svcMatches` spells out exactly the fields:
destination_port, health_check.port = desired destination, interval,
retries, timeout, proxyprotocol, http must be absent, health-check protocol
must be TCP); an observed service with an undesired listen port is deleted;
a desired pair with no observed service on its listen port is added as the
TCP service `mkSvc` (no http, TCP health check on the destination port). -/
theorem reconcile_services_diff (lb : LoadBalancer) (hlb : HLB)
    (hports : (hlb.services.map (·.listen_port)).Nodup) :
    (∀ s ∈ hlb.services, ∀ d, lookupDest lb.services s.listen_port = some d →
       (Cmd.updateService hlb.id (mkSvc lb s.listen_port d) ∈ reconcileServices lb hlb
         ↔ svcMatches lb s d = false))
    ∧ (∀ s ∈ hlb.services, lookupDest lb.services s.listen_port = none →
        Cmd.deleteService hlb.id s.listen_port ∈ reconcileServices lb hlb)
    ∧ (∀ p d, (p, d) ∈ lb.services →
        (hlb.services.any (fun s => decide (s.listen_port = p))) = false →
        Cmd.addService hlb.id (mkSvc lb p d) ∈ reconcileServices lb hlb) := by
  refine ⟨?_, ?_, ?_⟩
  · intro s hs d hd
    constructor
    · intro hmem
      rcases (List.mem_append).mp hmem with hA | hB
      · rcases mem_reconcileServicesA.mp hA with ⟨s', hs', hc⟩
        cases hl' : lookupDest lb.services s'.listen_port with
        | none =>
          rw [serviceDiff_none hl'] at hc
          simp at hc
        | some d' =>
          rw [serviceDiff_some hl'] at hc
          by_cases hm : svcMatches lb s' d' = true
          · rw [if_pos hm] at hc; simp at hc
          · simp only [Bool.not_eq_true] at hm
            rw [if_neg (by rw [hm]; simp)] at hc
            rw [List.mem_singleton] at hc
            injection hc with hid hsvc
            have hport : s.listen_port = s'.listen_port := by
              have h2 := congrArg HSvc.listen_port hsvc
              exact h2
            have hdd : d = d' := by
              have h2 := congrArg HSvc.destination_port hsvc
              exact h2
            have hss : s = s' := List.inj_on_of_nodup_map hports hs hs' hport
            rw [hss, hdd]
            exact hm
      · rcases mem_reconcileServicesB.mp hB with ⟨pd, _, _, hc⟩
        cases hc
    · intro hm
      apply List.mem_append_left
      apply mem_reconcileServicesA.mpr
      refine ⟨s, hs, ?_⟩
      rw [serviceDiff_some hd, if_neg (by rw [hm]; simp)]
      simp
  · intro s hs hd
    apply List.mem_append_left
    apply mem_reconcileServicesA.mpr
    refine ⟨s, hs, ?_⟩
    rw [serviceDiff_none hd]
    simp
  · intro p d hm hf
    apply List.mem_append_right
    apply mem_reconcileServicesB.mpr
    exact ⟨(p, d), hm, hf, rfl⟩

def svcMismatchWit : HSvc :=
  { listen_port := 80
    destination_port := 9999
    proxyprotocol := false
    http := none
    health_check := { protocol := .tcp, port := 9999, interval := 15, retries := 3,
                      timeout := 10 } }

def hlbMismatchWit : HLB := { bWit with services := [svcMismatchWit] }

/-- Witness for C3: a concrete mismatched service is updated, and a fresh
desired pair is added. -/
theorem reconcile_services_diff_witness :
    Cmd.updateService 1 (mkSvc lbWit 80 30080) ∈ reconcileServices lbWit hlbMismatchWit
    ∧ Cmd.addService 1 (mkSvc lbWit 80 30080) ∈
        reconcileServices lbWit { bWit with services := [] } :=
  ⟨((reconcile_services_diff lbWit hlbMismatchWit (by decide)).1 svcMismatchWit
      (by decide) 30080 (by decide)).mpr (by decide),
   (reconcile_services_diff lbWit { bWit with services := [] } (by decide)).2.2 80 30080
      (by decide) (by decide)⟩

/-! ## Claim C4 -/

/-- The observed ips that pass A of `reconcile_targets` removes. -/
def remIps (des : List String) (obs : List Target) : List String :=
  (obs.filterMap (·.ip)).filter (fun ip => !decide (ip ∈ des))

/-- The desired ips that pass B of `reconcile_targets` adds. -/
def addIps (obs : List Target) (des : List String) : List String :=
  des.filter (fun ip => !(obs.any (fun t => decide (t.ip = some ip))))

theorem reconcileTargetsA_eq (des : List String) (bid : Int) (obs : List Target) :
    reconcileTargetsA des bid obs = (remIps des obs).map (Cmd.removeTarget bid) := by
  induction obs with
  | nil => rfl
  | cons t rest ih =>
    cases hip : t.ip with
    | none => simp [reconcileTargetsA, hip, remIps, List.filterMap_cons, ih]
    | some ip =>
      by_cases hd : ip ∈ des
      · simp [reconcileTargetsA, hip, hd, remIps, List.filterMap_cons, ih]
      · simp [reconcileTargetsA, hip, hd, remIps, List.filterMap_cons, ih]

theorem reconcileTargetsB_eq (obs : List Target) (bid : Int) (des : List String) :
    reconcileTargetsB obs bid des = (addIps obs des).map (Cmd.addTarget bid) := by
  induction des with
  | nil => rfl
  | cons ip rest ih =>
    by_cases h : (obs.any (fun t => decide (t.ip = some ip))) = true
    · simp [reconcileTargetsB, h, addIps, ih]
    · simp only [Bool.not_eq_true] at h
      simp [reconcileTargetsB, h, addIps, ih]

theorem applyCmdB_id (b : HLB) (c : Cmd) : (applyCmdB b c).id = b.id := by
  cases c <;> simp only [applyCmdB] <;> first
    | rfl
    | (split <;> rfl)

theorem foldl_applyCmdB_id (cs : List Cmd) (b : HLB) :
    (cs.foldl applyCmdB b).id = b.id := by
  induction cs generalizing b with
  | nil => rfl
  | cons c rest ih => rw [List.foldl_cons, ih, applyCmdB_id]

theorem mem_foldl_removeList (ips : List String) (bid : Int) (t : Target) :
    ∀ b : HLB, b.id = bid →
      (t ∈ ((ips.map (Cmd.removeTarget bid)).foldl applyCmdB b).targets ↔
        t ∈ b.targets ∧ ∀ ip ∈ ips, t.ip ≠ some ip) := by
  induction ips with
  | nil => intro b _; simp
  | cons ip rest ih =>
    intro b hid
    simp only [List.map_cons, List.foldl_cons]
    have hb : applyCmdB b (.removeTarget bid ip) =
        { b with targets := b.targets.filter (fun u => decide (u.ip ≠ some ip)) } := by
      simp only [applyCmdB]
      rw [if_pos hid]
    rw [hb, ih { b with targets := b.targets.filter (fun u => decide (u.ip ≠ some ip)) } hid]
    simp only [List.mem_filter, decide_eq_true_eq, List.forall_mem_cons]
    constructor
    · rintro ⟨⟨h1, h2⟩, h3⟩
      exact ⟨h1, h2, h3⟩
    · rintro ⟨h1, h2, h3⟩
      exact ⟨⟨h1, h2⟩, h3⟩

theorem mem_foldl_addList (ips : List String) (bid : Int) (t : Target) :
    ∀ b : HLB, b.id = bid →
      (t ∈ ((ips.map (Cmd.addTarget bid)).foldl applyCmdB b).targets ↔
        t ∈ b.targets ∨ ∃ ip ∈ ips, t = ⟨some ip⟩) := by
  induction ips with
  | nil => intro b _; simp
  | cons ip rest ih =>
    intro b hid
    simp only [List.map_cons, List.foldl_cons]
    have hb : applyCmdB b (.addTarget bid ip) =
        { b with targets := b.targets ++ [⟨some ip⟩] } := by
      simp only [applyCmdB]
      rw [if_pos hid]
    rw [hb, ih { b with targets := b.targets ++ [⟨some ip⟩] } hid]
    simp only [List.mem_append, List.mem_singleton, List.mem_cons]
    constructor
    · rintro ((h | h) | ⟨ip', h1, h2⟩)
      · exact Or.inl h
      · rcases h with h | h
        · exact Or.inr ⟨ip, Or.inl rfl, h⟩
        · cases h
      · exact Or.inr ⟨ip', Or.inr h1, h2⟩
    · rintro (h | ⟨ip', h1 | h1, h2⟩)
      · exact Or.inl (Or.inl h)
      · subst h1; exact Or.inl (Or.inr (Or.inl h2))
      · exact Or.inr ⟨ip', h1, h2⟩

theorem mem_remIps {des : List String} {obs : List Target} {ip : String} :
    ip ∈ remIps des obs ↔ (∃ t ∈ obs, t.ip = some ip) ∧ ip ∉ des := by
  simp [remIps, List.mem_filter, List.mem_filterMap]

theorem mem_addIps {obs : List Target} {des : List String} {ip : String} :
    ip ∈ addIps obs des ↔ ip ∈ des ∧ ∀ t ∈ obs, t.ip ≠ some ip := by
  simp [addIps, List.mem_filter, List.any_eq_true]

/-- **C4.**  `reconcile_targets` removes exactly the observed target ips not
in the desired list, adds exactly the desired ips no observed target
carries, and applying the issued commands to the observed balancer makes
its set of target ips coincide with the desired target list. -/
theorem reconcile_targets_exact (lb : LoadBalancer) (hlb : HLB) :
    (∀ ip, Cmd.removeTarget hlb.id ip ∈ reconcileTargets lb hlb ↔
       ((∃ t ∈ hlb.targets, t.ip = some ip) ∧ ip ∉ lb.targets))
    ∧ (∀ ip, Cmd.addTarget hlb.id ip ∈ reconcileTargets lb hlb ↔
       (ip ∈ lb.targets ∧ ∀ t ∈ hlb.targets, t.ip ≠ some ip))
    ∧ (∀ ip, (((reconcileTargets lb hlb).foldl applyCmdB hlb).targets.any
         (fun t => decide (t.ip = some ip))) = true ↔ ip ∈ lb.targets) := by
  have hsplit : reconcileTargets lb hlb =
      (remIps lb.targets hlb.targets).map (Cmd.removeTarget hlb.id) ++
        (addIps hlb.targets lb.targets).map (Cmd.addTarget hlb.id) := by
    rw [reconcileTargets, reconcileTargetsA_eq, reconcileTargetsB_eq]
  refine ⟨?_, ?_, ?_⟩
  · intro ip
    rw [hsplit]
    simp only [List.mem_append, List.mem_map]
    constructor
    · rintro (⟨ip', hm, he⟩ | ⟨ip', hm, he⟩)
      · injection he with he1 he2
        subst he2
        exact mem_remIps.mp hm
      · cases he
    · intro h
      exact Or.inl ⟨ip, mem_remIps.mpr h, rfl⟩
  · intro ip
    rw [hsplit]
    simp only [List.mem_append, List.mem_map]
    constructor
    · rintro (⟨ip', hm, he⟩ | ⟨ip', hm, he⟩)
      · cases he
      · injection he with he1 he2
        subst he2
        exact mem_addIps.mp hm
    · intro h
      exact Or.inr ⟨ip, mem_addIps.mpr h, rfl⟩
  · intro ip
    rw [hsplit, List.foldl_append]
    have hb1id : (((remIps lb.targets hlb.targets).map
        (Cmd.removeTarget hlb.id)).foldl applyCmdB hlb).id = hlb.id :=
      foldl_applyCmdB_id _ _
    rw [List.any_eq_true]
    constructor
    · rintro ⟨t, htmem, htip⟩
      rw [decide_eq_true_eq] at htip
      rcases (mem_foldl_addList _ _ _ _ hb1id).mp htmem with hsurv | ⟨ip', hip', hteq⟩
      · obtain ⟨ht, hall⟩ := (mem_foldl_removeList _ _ _ _ rfl).mp hsurv
        by_contra hdes
        exact hall ip (mem_remIps.mpr ⟨⟨t, ht, htip⟩, hdes⟩) htip
      · subst hteq
        injection htip with he
        subst he
        exact (mem_addIps.mp hip').1
    · intro hdes
      by_cases hobs : ∃ t ∈ hlb.targets, t.ip = some ip
      · obtain ⟨t, ht, htip⟩ := hobs
        refine ⟨t, ?_, by rw [decide_eq_true_eq]; exact htip⟩
        apply (mem_foldl_addList _ _ _ _ hb1id).mpr
        apply Or.inl
        apply (mem_foldl_removeList _ _ _ _ rfl).mpr
        refine ⟨ht, ?_⟩
        intro ip' hip' hbad
        rw [htip] at hbad
        injection hbad with he
        subst he
        exact (mem_remIps.mp hip').2 hdes
      · refine ⟨⟨some ip⟩, ?_, by simp⟩
        apply (mem_foldl_addList _ _ _ _ hb1id).mpr
        apply Or.inr
        refine ⟨ip, ?_, rfl⟩
        apply mem_addIps.mpr
        refine ⟨hdes, ?_⟩
        intro t ht hbad
        exact hobs ⟨t, ht, hbad⟩

/-- Witness for C4 at a concrete balancer: `10.0.0.9` is removed, the
desired ip is present after applying the commands. -/
theorem reconcile_targets_exact_witness :
    Cmd.removeTarget 1 "10.0.0.9" ∈
      reconcileTargets lbWit { bWit with targets := [⟨some "10.0.0.9"⟩] }
    ∧ ((((reconcileTargets lbWit { bWit with targets := [⟨some "10.0.0.9"⟩] }).foldl
          applyCmdB { bWit with targets := [⟨some "10.0.0.9"⟩] }).targets.any
        (fun t => decide (t.ip = some "1.2.3.4"))) = true) :=
  ⟨((reconcile_targets_exact lbWit { bWit with targets := [⟨some "10.0.0.9"⟩] }).1
      "10.0.0.9").mpr (by decide),
   ((reconcile_targets_exact lbWit { bWit with targets := [⟨some "10.0.0.9"⟩] }).2.2
      "1.2.3.4").mpr (by decide)⟩

/-! ## Claim C5 -/

/-- The detach commands the `reconcile_network` loop issues. -/
def detachesOf (desired : Option Int) (pip : Option String) (bid : Int)
    (l : List PrivateNet) : List Cmd :=
  l.filterMap (fun pn => pn.network.bind
    (fun nid => if satisfactoryEntry desired pip pn then none else some (Cmd.detach bid nid)))

theorem mem_detachesOf {desired : Option Int} {pip : Option String} {bid : Int}
    {l : List PrivateNet} {c : Cmd} :
    c ∈ detachesOf desired pip bid l ↔
      ∃ pn ∈ l, ∃ nid, pn.network = some nid
        ∧ satisfactoryEntry desired pip pn = false ∧ c = .detach bid nid := by
  unfold detachesOf
  rw [List.mem_filterMap]
  constructor
  · rintro ⟨pn, hpn, hf⟩
    cases hn : pn.network with
    | none => rw [hn] at hf; cases hf
    | some nid =>
      rw [hn] at hf
      by_cases hs : satisfactoryEntry desired pip pn = true
      · simp [hs] at hf
      · simp only [Bool.not_eq_true] at hs
        simp [hs] at hf
        exact ⟨pn, hpn, nid, hn, hs, hf.symm⟩
  · rintro ⟨pn, hpn, nid, hn, hs, rfl⟩
    refine ⟨pn, hpn, ?_⟩
    rw [hn]
    simp [hs]

theorem nodup_filterMap_inj {α β : Type} {f : α → Option β} :
    ∀ {l : List α}, (l.filterMap f).Nodup →
      ∀ x ∈ l, ∀ y ∈ l, ∀ a, f x = some a → f y = some a → x = y := by
  intro l
  induction l with
  | nil => intro _ x hx; cases hx
  | cons z rest ih =>
    intro hnd x hx y hy a hfx hfy
    rw [List.filterMap_cons] at hnd
    cases hz : f z with
    | none =>
      rw [hz] at hnd
      rcases List.mem_cons.mp hx with rfl | hx'
      · rw [hz] at hfx; cases hfx
      · rcases List.mem_cons.mp hy with rfl | hy'
        · rw [hz] at hfy; cases hfy
        · exact ih hnd x hx' y hy' a hfx hfy
    | some b =>
      rw [hz] at hnd
      obtain ⟨hb, hnd'⟩ := List.nodup_cons.mp hnd
      rcases List.mem_cons.mp hx with rfl | hx'
      · rcases List.mem_cons.mp hy with rfl | hy'
        · rfl
        · rw [hz] at hfx
          injection hfx with he
          subst he
          exact absurd (List.mem_filterMap.mpr ⟨y, hy', hfy⟩) hb
      · rcases List.mem_cons.mp hy with rfl | hy'
        · rw [hz] at hfy
          injection hfy with he
          subst he
          exact absurd (List.mem_filterMap.mpr ⟨x, hx', hfx⟩) hb
        · exact ih hnd' x hx' y hy' a hfx hfy

/-- The command list `reconcile_network` issues outside the trivial no-op
case: the detaches, plus an attach when no satisfactory entry was seen and
a desired network id exists. -/
def netPlan (desired : Option Int) (pip : Option String) (bid : Int)
    (l : List PrivateNet) : List Cmd :=
  if l.any (satisfactoryEntry desired pip) then detachesOf desired pip bid l
  else
    match desired with
    | none => detachesOf desired pip bid l
    | some nid => detachesOf desired pip bid l ++ [.attach bid nid pip]

/-- Computation of `reconcile_network` outside the trivial no-op case. -/
theorem reconcileNetwork_eq {lb : LoadBalancer} {st : HCloudState} {hlb : HLB}
    {desired : Option Int}
    (hdes : getNetwork lb st = .ok desired)
    (hc : (lb.network_name.isNone && hlb.private_net.isEmpty) = false) :
    reconcileNetwork lb st hlb =
      .ok (netPlan desired lb.private_ip hlb.id hlb.private_net) := by
  unfold reconcileNetwork netPlan
  rw [if_neg (by rw [hc]; simp)]
  simp only [hdes]
  simp only [netScan_eq]
  by_cases ha : hlb.private_net.any (satisfactoryEntry desired lb.private_ip) = true
  · simp [ha, detachesOf]
  · simp only [Bool.not_eq_true] at ha
    simp only [ha, Bool.false_eq_true, if_false]
    cases desired <;> simp [detachesOf]

theorem netPlan_detach_iff {desired : Option Int} {pip : Option String} {bid nid : Int}
    {l : List PrivateNet} :
    Cmd.detach bid nid ∈ netPlan desired pip bid l ↔
      Cmd.detach bid nid ∈ detachesOf desired pip bid l := by
  unfold netPlan
  by_cases ha : l.any (satisfactoryEntry desired pip) = true
  · rw [if_pos ha]
  · simp only [Bool.not_eq_true] at ha
    rw [if_neg (by rw [ha]; simp)]
    cases desired with
    | none => exact Iff.rfl
    | some nid' =>
      constructor
      · intro h
        rcases List.mem_append.mp h with h | h
        · exact h
        · rw [List.mem_singleton] at h
          cases h
      · intro h
        exact List.mem_append_left _ h

theorem netPlan_attach_iff {desired : Option Int} {pip : Option String} {bid nid : Int}
    {l : List PrivateNet} (hd : desired = some nid) :
    Cmd.attach bid nid pip ∈ netPlan desired pip bid l ↔
      l.any (satisfactoryEntry desired pip) = false := by
  subst hd
  unfold netPlan
  by_cases ha : l.any (satisfactoryEntry (some nid) pip) = true
  · rw [if_pos ha]
    constructor
    · intro h
      rcases mem_detachesOf.mp h with ⟨_, _, _, _, _, he⟩
      cases he
    · intro h
      rw [h] at ha
      cases ha
  · simp only [Bool.not_eq_true] at ha
    rw [if_neg (by rw [ha]; simp)]
    constructor
    · intro _
      exact ha
    · intro _
      exact List.mem_append_right _ (List.mem_singleton.mpr rfl)

theorem netPlan_attach_none {pip : Option String} {bid : Int} {l : List PrivateNet}
    (nid : Int) (ip : Option String) :
    Cmd.attach bid nid ip ∉ netPlan none pip bid l := by
  intro h
  unfold netPlan at h
  have hD : Cmd.attach bid nid ip ∈ detachesOf none pip bid l := by
    by_cases ha : l.any (satisfactoryEntry none pip) = true
    · rwa [if_pos ha] at h
    · simp only [Bool.not_eq_true] at ha
      rwa [if_neg (by rw [ha]; simp)] at h
  rcases mem_detachesOf.mp hD with ⟨_, _, _, _, _, he⟩
  cases he

/-- **C5 (amended).**  `reconcile_network` is a no-op when no network is
configured and the balancer has no private networks.  Otherwise, among the
observed `private_net` entries that carry a network id, an entry is
detached iff it is not satisfactory (entries without a network id are
skipped, not detached — this is the amendment); an attach with
`{network: desired_id, ip: private_ip?}` is issued iff no satisfactory
entry was seen and a desired network id exists. -/
theorem reconcile_network_amended (lb : LoadBalancer) (st : HCloudState) (hlb : HLB)
    (desired : Option Int) (cmds : List Cmd)
    (hids : (hlb.private_net.filterMap (fun pn => pn.network)).Nodup)
    (hdes : getNetwork lb st = .ok desired)
    (hrun : reconcileNetwork lb st hlb = .ok cmds) :
    (lb.network_name = none → hlb.private_net = [] → cmds = [])
    ∧ (∀ pn ∈ hlb.private_net, ∀ nid, pn.network = some nid →
        (Cmd.detach hlb.id nid ∈ cmds ↔ satisfactoryEntry desired lb.private_ip pn = false))
    ∧ (∀ nid, desired = some nid →
        (Cmd.attach hlb.id nid lb.private_ip ∈ cmds ↔
          hlb.private_net.any (satisfactoryEntry desired lb.private_ip) = false))
    ∧ (desired = none → ∀ nid ip, Cmd.attach hlb.id nid ip ∉ cmds) := by
  by_cases hc : (lb.network_name.isNone && hlb.private_net.isEmpty) = true
  · have hnil : cmds = [] := by
      have h0 : reconcileNetwork lb st hlb = .ok [] := by
        unfold reconcileNetwork
        rw [if_pos hc]
      rw [h0] at hrun
      injection hrun with h
      exact h.symm
    have hpnil : hlb.private_net = [] := by
      have h2 : hlb.private_net.isEmpty = true := by
        cases h : hlb.private_net.isEmpty
        · rw [h] at hc
          simp at hc
        · rfl
      exact List.isEmpty_iff.mp h2
    have hnone : lb.network_name = none := by
      have h1 : lb.network_name.isNone = true := by
        cases h : lb.network_name.isNone
        · rw [h] at hc
          simp at hc
        · rfl
      exact Option.isNone_iff_eq_none.mp h1
    refine ⟨fun _ _ => hnil, ?_, ?_, ?_⟩
    · intro pn hpn
      rw [hpnil] at hpn
      cases hpn
    · intro nid hd
      have hg : getNetwork lb st = .ok none := by
        unfold getNetwork
        rw [hnone]
      rw [hg] at hdes
      injection hdes with h
      rw [← h] at hd
      cases hd
    · intro _ nid ip
      rw [hnil]
      simp
  · simp only [Bool.not_eq_true] at hc
    rw [reconcileNetwork_eq hdes hc] at hrun
    injection hrun with hcmds
    subst hcmds
    refine ⟨?_, ?_, ?_, ?_⟩
    · intro h1 h2
      have htrue : (lb.network_name.isNone && hlb.private_net.isEmpty) = true := by
        rw [h1, h2]
        rfl
      rw [htrue] at hc
      cases hc
    · intro pn hpn nid hn
      rw [netPlan_detach_iff]
      constructor
      · intro hmD
        rcases mem_detachesOf.mp hmD with ⟨pn', hpn', nid', hn', hs', he⟩
        injection he with he1 he2
        subst he2
        have hpp : pn = pn' := nodup_filterMap_inj hids pn hpn pn' hpn' nid hn hn'
        rw [hpp]
        exact hs'
      · intro hs
        exact mem_detachesOf.mpr ⟨pn, hpn, nid, hn, hs, rfl⟩
    · intro nid hd
      exact netPlan_attach_iff hd
    · intro hd nid ip
      rw [hd]
      exact netPlan_attach_none nid ip

def lbC5 : LoadBalancer := { lbWit with network_name := some "net" }

def stC5 : HCloudState := { balancers := [bWit], networks := [⟨7, "net"⟩] }

def hlbC5none : HLB := { bWit with private_net := [⟨none, none⟩] }

def hlbC5wrong : HLB := { bWit with private_net := [⟨some 5, none⟩] }

def isDetach : Cmd → Bool
  | .detach _ _ => true
  | _ => false

/-- **C5 counterexample.**  A `private_net` entry without a network id is
not satisfactory (its network id cannot equal the resolved desired id), yet
`reconcile_network` keeps it: the only issued command is an attach and no
detach is issued at all, contradicting "every non-satisfactory entry is
detached". -/
theorem reconcile_network_counterexample :
    reconcileNetwork lbC5 stC5 hlbC5none = .ok [Cmd.attach 1 7 none]
    ∧ satisfactoryEntry (some 7) none ⟨none, none⟩ = false
    ∧ ([Cmd.attach 1 7 none].any isDetach) = false := by decide

/-- Witness for the amended C5: a concrete wrong attachment is detached and
the desired network is attached. -/
theorem reconcile_network_amended_witness :
    Cmd.detach 1 5 ∈ [Cmd.detach 1 5, Cmd.attach 1 7 none]
    ∧ Cmd.attach 1 7 none ∈ [Cmd.detach 1 5, Cmd.attach 1 7 none] :=
  ⟨((reconcile_network_amended lbC5 stC5 hlbC5wrong (some 7)
        [Cmd.detach 1 5, Cmd.attach 1 7 none] (by decide) (by decide) (by decide)).2.1
      ⟨some 5, none⟩ (by decide) 5 rfl).mpr (by decide),
   ((reconcile_network_amended lbC5 stC5 hlbC5wrong (some 7)
        [Cmd.detach 1 5, Cmd.attach 1 7 none] (by decide) (by decide) (by decide)).2.2.1
      7 rfl).mpr (by decide)⟩

/-! ## Claim C6 -/

/-- The spec's reference semantics of one clause (spec §4.4): `KEY` → key
exists; `!KEY` → key does not exist; `KEY=VALUE` → key maps to VALUE;
`KEY!=VALUE` → key does not map to VALUE (the concrete forms observed after
splitting the clause on `'='`, as the spec's own parsing details lay out). -/
def specClauseEval (labels : List (String × String)) (clause : String) : Bool :=
  match splitStr '=' clause with
  | [k] =>
    if startsWithBang k then decide (assocLookup labels (dropFirstChar k) = none)
    else decide (assocLookup labels k ≠ none)
  | [k, v] =>
    if endsWithBang k then decide (assocLookup labels (dropLastChar k) ≠ some v)
    else decide (assocLookup labels k = some v)
  | _ => false

theorem ruleHolds_eq_spec {labels : List (String × String)} {c : String} {r : Rule}
    (h : parseClause c = .ok r) : ruleHolds labels r = specClauseEval labels c := by
  unfold parseClause at h
  unfold specClauseEval
  cases hs : splitStr '=' c with
  | nil =>
    simp only [hs] at h
    cases h
  | cons k rest =>
    cases rest with
    | nil =>
      simp only [hs] at h ⊢
      by_cases hb : startsWithBang k = true
      · rw [if_pos hb] at h ⊢
        injection h with h'
        subst h'
        unfold ruleHolds
        cases hx : assocLookup labels (dropFirstChar k) <;> simp [hx]
      · rw [if_neg hb] at h ⊢
        injection h with h'
        subst h'
        unfold ruleHolds
        cases hx : assocLookup labels k <;> simp [hx]
    | cons v rest2 =>
      cases rest2 with
      | nil =>
        simp only [hs] at h ⊢
        by_cases hb : endsWithBang k = true
        · rw [if_pos hb] at h ⊢
          injection h with h'
          subst h'
          unfold ruleHolds
          rfl
        · rw [if_neg hb] at h ⊢
          injection h with h'
          subst h'
          unfold ruleHolds
          rfl
      | cons w rest3 =>
        simp only [hs] at h
        cases h

theorem checkRules_eq_spec {labels : List (String × String)} :
    ∀ {cs : List String} {rules : List Rule}, parseRules cs = .ok rules →
      (checkRules rules labels = true ↔ ∀ c ∈ cs, specClauseEval labels c = true) := by
  intro cs
  induction cs with
  | nil =>
    intro rules h
    injection h with h'
    subst h'
    simp [checkRules]
  | cons c rest ih =>
    intro rules h
    unfold parseRules at h
    cases hp : parseClause c with
    | error e =>
      simp only [hp] at h
      cases h
    | ok r =>
      simp only [hp] at h
      cases hq : parseRules rest with
      | error e =>
        simp only [hq] at h
        cases h
      | ok rs =>
        simp only [hq] at h
        injection h with h'
        subst h'
        have hr := @ruleHolds_eq_spec labels c r hp
        have hrest := ih hq
        rw [List.forall_mem_cons]
        unfold checkRules at *
        rw [List.all_cons, Bool.and_eq_true_iff, hr, hrest]

theorem splitChars_ne_nil (c : Char) (l : List Char) : splitChars c l ≠ [] := by
  cases l with
  | nil => simp [splitChars]
  | cons x xs =>
    unfold splitChars
    cases hrec : splitChars c xs with
    | nil => simp
    | cons g gs => by_cases hx : x = c <;> simp [hx]

theorem splitStr_ne_nil (c : Char) (s : String) : splitStr c s ≠ [] := by
  unfold splitStr
  intro h
  rw [List.map_eq_nil_iff] at h
  exact splitChars_ne_nil c s.data h

theorem parseClause_arity_error {c : String} (h : 2 < (splitStr '=' c).length) :
    parseClause c = .error (.invalidNodeFilter c) := by
  unfold parseClause
  cases hs : splitStr '=' c with
  | nil => rfl
  | cons k rest =>
    cases rest with
    | nil =>
      rw [hs] at h
      simp at h
    | cons v rest2 =>
      cases rest2 with
      | nil =>
        rw [hs] at h
        simp at h
      | cons w rest3 => rfl

theorem parseClause_arity_ok {c : String} (h : ¬ 2 < (splitStr '=' c).length) :
    ∃ r, parseClause c = .ok r := by
  unfold parseClause
  cases hs : splitStr '=' c with
  | nil => exact absurd hs (splitStr_ne_nil '=' c)
  | cons k rest =>
    cases rest with
    | nil =>
      by_cases hb : startsWithBang k = true
      · exact ⟨.doesNotExist (dropFirstChar k), by simp [hb]⟩
      · exact ⟨.keyExists k, by simp [hb]⟩
    | cons v rest2 =>
      cases rest2 with
      | nil =>
        by_cases hb : endsWithBang k = true
        · exact ⟨.notEqual (dropLastChar k) v, by simp [hb]⟩
        · exact ⟨.equal k v, by simp [hb]⟩
      | cons w rest3 =>
        rw [hs] at h
        simp at h

theorem parseRules_arity_error :
    ∀ cs : List String, (∃ c ∈ cs, 2 < (splitStr '=' c).length) →
      ∃ c', 2 < (splitStr '=' c').length
        ∧ parseRules cs = .error (.invalidNodeFilter c') := by
  intro cs
  induction cs with
  | nil =>
    rintro ⟨c, hc, _⟩
    cases hc
  | cons c rest ih =>
    rintro ⟨c0, hc0, harity⟩
    by_cases hfirst : 2 < (splitStr '=' c).length
    · refine ⟨c, hfirst, ?_⟩
      unfold parseRules
      rw [parseClause_arity_error hfirst]
    · have hc0' : c0 ∈ rest := by
        rcases List.mem_cons.mp hc0 with rfl | h
        · exact absurd harity hfirst
        · exact h
      obtain ⟨c', hlen, herr⟩ := ih ⟨c0, hc0', harity⟩
      refine ⟨c', hlen, ?_⟩
      unfold parseRules
      obtain ⟨r, hr⟩ := parseClause_arity_ok hfirst
      rw [hr, herr]

/-- **C6.**  For every expression the label-filter parser accepts and every
label map, the parsed predicate returns true iff every comma-separated
clause of the expression holds under the spec's reference clause semantics
(`specClauseEval`); an expression with a clause whose split on `'='` yields
more than two parts is rejected with `InvalidNodeFilter`. -/
theorem label_filter_correct (s : String) (rules : List Rule)
    (labels : List (String × String))
    (hp : parseFilter s = .ok rules) :
    (checkRules rules labels = true ↔
      ∀ c ∈ splitStr ',' s, specClauseEval labels c = true)
    ∧ (∀ s' : String, (∃ c ∈ splitStr ',' s', 2 < (splitStr '=' c).length) →
        ∃ c', 2 < (splitStr '=' c').length
          ∧ parseFilter s' = .error (.invalidNodeFilter c')) := by
  constructor
  · exact checkRules_eq_spec hp
  · intro s' h
    exact parseRules_arity_error (splitStr ',' s') h

/-- Witness for C6: a concrete expression with all four clause forms
evaluated over a concrete label map, and a clause of arity three rejected. -/
theorem label_filter_correct_witness :
    checkRules [Rule.equal "a" "1", Rule.doesNotExist "b", Rule.notEqual "c" "2",
      Rule.keyExists "d"] [("a", "1"), ("d", "x")] = true
    ∧ ∃ c', 2 < (splitStr '=' c').length
        ∧ parseFilter "a=b=c" = .error (.invalidNodeFilter c') :=
  ⟨(label_filter_correct "a=1,!b,c!=2,d"
      [Rule.equal "a" "1", Rule.doesNotExist "b", Rule.notEqual "c" "2", Rule.keyExists "d"]
      [("a", "1"), ("d", "x")] (by decide)).1.mpr (by decide),
   (label_filter_correct "a=1,!b,c!=2,d"
      [Rule.equal "a" "1", Rule.doesNotExist "b", Rule.notEqual "c" "2", Rule.keyExists "d"]
      [("a", "1"), ("d", "x")] (by decide)).2 "a=b=c" ⟨"a=b=c", by decide, by decide⟩⟩

/-! ## Claim C7 -/

/-- **C7 counterexample.**  Parsing the empty expression succeeds, but the
empty string splits into one empty clause, which parses as `Exists("")`;
that predicate is false on the empty label map, refuting "returns true for
every label map, including the empty one". -/
theorem empty_filter_counterexample :
    parseFilter "" = .ok [Rule.keyExists ""]
    ∧ checkRules [Rule.keyExists ""] [] = false := by decide

/-- **C7 (amended).**  Parsing the empty filter expression succeeds and
yields the single rule `Exists("")`; the resulting predicate returns true
exactly for label maps that bind the empty-string key — in particular it is
false for the empty map, not true for every map. -/
theorem empty_filter_amended (labels : List (String × String)) :
    parseFilter "" = .ok [Rule.keyExists ""]
    ∧ (checkRules [Rule.keyExists ""] labels = true ↔ assocLookup labels "" ≠ none) := by
  refine ⟨by decide, ?_⟩
  simp only [checkRules, List.all_cons, List.all_nil, Bool.and_true]
  simp only [ruleHolds]
  cases hx : assocLookup labels "" <;> simp [hx]

/-! ## Claim C8 -/

def svcC8 : KService :=
  { name := "svc"
    nspace := some "ns"
    annots := []
    labels := []
    finalizers := some ["other"]
    deletionTimestamp := none
    spec := none }

/-- **C8 counterexample.**  `add` sends the merge patch
`{metadata: {finalizers: [FINALIZER]}}` and JSON merge-patch semantics
replace the whole list; for a Service whose finalizer list is `["other"]`,
`add` followed by `remove` therefore ends with `[]`, which is not a
permutation of `["other"]`: the round trip does not preserve
`metadata.finalizers` modulo order. -/
theorem finalizer_roundtrip_counterexample :
    (addFinalizer svcC8 >>= removeFinalizer) = .ok { svcC8 with finalizers := some [] }
    ∧ ¬ (finalizersList { svcC8 with finalizers := some [] }).Perm
        (finalizersList svcC8) := by
  refine ⟨by decide, by decide⟩

/-- **C8 (amended).**  For a Service with a namespace, `add`'s merge patch
replaces `metadata.finalizers` with exactly `[FINALIZER]`, so `add`
followed by `remove` always leaves the empty list: the round trip preserves
the finalizer list (even modulo order) only when it was empty; `remove`
itself is idempotent by construction. -/
theorem finalizer_roundtrip_amended (svc svc1 svc2 : KService)
    (h1 : addFinalizer svc = .ok svc1) (h2 : removeFinalizer svc1 = .ok svc2) :
    finalizersList svc2 = []
    ∧ (finalizersList svc = [] → (finalizersList svc2).Perm (finalizersList svc))
    ∧ (∀ svcA svcB : KService, removeFinalizer svc = .ok svcA →
        removeFinalizer svcA = .ok svcB → finalizersList svcB = finalizersList svcA) := by
  have hmain : finalizersList svc2 = [] := by
    unfold addFinalizer at h1
    cases hn : svc.nspace with
    | none =>
      rw [hn] at h1
      cases h1
    | some ns =>
      rw [hn] at h1
      injection h1 with h1'
      subst h1'
      unfold removeFinalizer applyFinalizersPatch at h2
      simp only [hn] at h2
      injection h2 with h2'
      subst h2'
      rfl
  refine ⟨hmain, fun hempty => by rw [hmain, hempty], ?_⟩
  intro svcA svcB hA hB
  unfold removeFinalizer at hA hB
  cases hn : svc.nspace with
  | none =>
    rw [hn] at hA
    cases hA
  | some ns =>
    rw [hn] at hA
    injection hA with hA'
    subst hA'
    unfold applyFinalizersPatch at hB
    simp only [hn] at hB
    injection hB with hB'
    subst hB'
    show (finalizersList (applyFinalizersPatch svc (removePatch svc))).filter
        (fun f => decide (f ≠ finalizerName)) = removePatch svc
    show (removePatch svc).filter (fun f => decide (f ≠ finalizerName)) = removePatch svc
    unfold removePatch
    rw [List.filter_filter]
    simp

def svcC8empty : KService := { svcC8 with finalizers := some [] }

/-- Witness for the amended C8 at a concrete Service. -/
theorem finalizer_roundtrip_amended_witness :
    finalizersList { svcC8empty with finalizers := some [] } = []
    ∧ (finalizersList { svcC8empty with finalizers := some [] }).Perm
        (finalizersList svcC8empty) :=
  ⟨(finalizer_roundtrip_amended svcC8empty
      { svcC8empty with finalizers := some [finalizerName] }
      { svcC8empty with finalizers := some [] } (by decide) (by decide)).1,
   (finalizer_roundtrip_amended svcC8empty
      { svcC8empty with finalizers := some [finalizerName] }
      { svcC8empty with finalizers := some [] } (by decide) (by decide)).2.1 (by decide)⟩

/-! ## Claim C9 -/

/-- **C9.**  On the deletion branch (deletionTimestamp set): when `cleanup`
succeeds, the reconciler's trace is exactly the cleanup's HCloud calls
followed by the finalizer-removal patch, returning `await_change`; `cleanup`
returns success with no calls when the balancer is not found, and otherwise
deletes all services, removes all (ip-carrying) targets, then deletes the
balancer, in that order; when `cleanup` fails the error propagates and the
trace contains no finalizer removal (the run is an error). -/
theorem deletion_branch (cfg : OperatorConfig) (kst : KubeState) (st : HCloudState)
    (svc : KService) (lb : LoadBalancer) (ns : String)
    (htype : svcTypeOf svc = "LoadBalancer")
    (hlb : tryFromSvc svc cfg = .ok lb)
    (hdel : svc.deletionTimestamp.isSome = true)
    (hns : svc.nspace = some ns) :
    (∀ cmds, cleanup lb st = .ok cmds →
      reconcileService cfg kst st svc =
        .ok (cmds.map Ev.hcloud ++ [Ev.k8s (.patchFinalizers (removePatch svc))],
          .awaitChange))
    ∧ (getHcloudLb lb st = .ok none → cleanup lb st = .ok [])
    ∧ (∀ b : HLB, getHcloudLb lb st = .ok (some b) →
        cleanup lb st = .ok
          ((b.services.map fun s => Cmd.deleteService b.id s.listen_port) ++
            (b.targets.filterMap fun t => t.ip.map (Cmd.removeTarget b.id)) ++
            [Cmd.deleteLB b.id]))
    ∧ (∀ e, cleanup lb st = .error e → reconcileService cfg kst st svc = .error e) := by
  have hgate : ¬ (svcTypeOf svc ≠ "LoadBalancer") := by rw [htype]; simp
  refine ⟨?_, ?_, ?_, ?_⟩
  · intro cmds hcl
    unfold reconcileService
    rw [if_neg hgate]
    simp only [hlb]
    rw [if_pos hdel]
    simp only [hcl, hns]
  · intro hg
    unfold cleanup
    simp only [hg]
  · intro b hg
    unfold cleanup
    simp only [hg]
  · intro e hcl
    unfold reconcileService
    rw [if_neg hgate]
    simp only [hlb]
    rw [if_pos hdel]
    simp only [hcl]

def cfgWit : OperatorConfig :=
  { default_network := none
    dynamic_node_selector := true
    default_lb_retries := 3
    default_lb_timeout := 10
    default_lb_interval := 15
    default_lb_location := "hel1"
    default_balancer_type := "lb11"
    default_lb_algorithm := "least-connections"
    default_lb_proxy_mode_enabled := false
    ipv6_ingress := false }

def kstWit : KubeState := { nodes := [], pods := [], defaultNamespace := "default" }

def svcDelWit : KService :=
  { name := "svc"
    nspace := some "n"
    annots := []
    labels := []
    finalizers := some [finalizerName]
    deletionTimestamp := some "t"
    spec := some { type? := some "LoadBalancer", selector := none, ports := none } }

def lbDelWit : LoadBalancer :=
  { name := "svc"
    services := []
    targets := []
    private_ip := none
    check_interval := 15
    timeout := 10
    retries := 3
    proxy_mode := false
    location := "hel1"
    balancer_type := "lb11"
    algorithm := .leastConnections
    network_name := none }

/-- Witness for C9: deleting a Service whose balancer no longer exists only
patches the finalizers away and returns `await_change`. -/
theorem deletion_branch_witness :
    reconcileService cfgWit kstWit stEmptyWit svcDelWit =
      .ok ([Ev.k8s (.patchFinalizers [])], .awaitChange) :=
  (deletion_branch cfgWit kstWit stEmptyWit svcDelWit lbDelWit "n" rfl (by decide)
    rfl rfl).1 [] (by decide)

/-! ## Claim C10 -/

/-- **C10.**  A Service whose `spec.type` is absent (or whose spec is absent
entirely) is treated as type `ClusterIP` and rejected by the type gate with
`SkipService`; the run is an error carrying no events, so no load-balancer
construction, target resolution, or HCloud call takes place. -/
theorem cluster_ip_gate (cfg : OperatorConfig) (kst : KubeState) (st : HCloudState)
    (svc : KService)
    (h : svc.spec = none ∨ ∃ sp, svc.spec = some sp ∧ sp.type? = none) :
    reconcileService cfg kst st svc = .error .skipService := by
  have htype : svcTypeOf svc = "ClusterIP" := by
    unfold svcTypeOf
    rcases h with h | ⟨sp, hsp, hty⟩
    · rw [h]
      rfl
    · rw [hsp]
      simp [hty]
  unfold reconcileService
  rw [if_pos (by rw [htype]; decide)]

def svcNoSpecWit : KService :=
  { name := "svc"
    nspace := some "n"
    annots := []
    labels := []
    finalizers := none
    deletionTimestamp := none
    spec := none }

/-- Witness for C10 at a concrete Service without a spec. -/
theorem cluster_ip_gate_witness :
    reconcileService cfgWit kstWit stEmptyWit svcNoSpecWit = .error .skipService :=
  cluster_ip_gate cfgWit kstWit stEmptyWit svcNoSpecWit (Or.inl rfl)

end RobotLB
